import Mathlib

/-!
Verification development for the godeogoker video pipeline
(`internal/videos/main.go`).  The subtitle/segment/cut machinery is embedded
shallowly:

* Go `time.Duration` values are modelled as integer nanoseconds (`ℤ`), which
  is exactly what the Go type is (an `int64` count of nanoseconds).
* Go `float64` computations on second values (`Duration.Seconds()`,
  `math.Max`, `math.Min`, conversions with `int(...)`) are modelled exactly
  over the rationals `p / 10^9`; the resulting integer formulas below compute
  the same truncations with `Int.tdiv` (truncation toward zero, which is what
  a Go `int(x)` conversion performs).  The float64 rounding error of
  `Seconds()` is ignored: it is monotone and all claims proved here are
  order-theoretic, so they are unaffected.
* The probed media duration (a decimal printed by ffprobe and parsed with
  `strconv.ParseFloat`) is modelled as an exact rational `ℚ`.
* Effectful steps (HTTP attempts, file writes, subprocess invocations) are
  driven by explicit oracles describing each attempt's outcome, so the retry
  and error-recovery control flow can be stated as pure functions.
-/

set_option maxRecDepth 8000

namespace Godeogoker

/-- Nanoseconds in one second (`time.Second`). -/
def nsPerSec : ℤ := 1000000000

/-- ASCII whitespace as removed by Go `strings.TrimSpace` (the source only
handles ASCII subtitle text, so the non-ASCII cases of `unicode.IsSpace` are
irrelevant and omitted). -/
def goIsSpace (c : Char) : Bool :=
  c == ' ' || c == '\t' || c == '\n' || c == '\r' || c == '\x0b' || c == '\x0c'

/-- Go `strings.TrimSpace` on a character list. -/
def chTrim (cs : List Char) : List Char :=
  ((cs.dropWhile goIsSpace).reverse.dropWhile goIsSpace).reverse

/-- Go `strings.TrimSpace` on strings. -/
def goTrimSpace (s : String) : String :=
  (chTrim s.data).asString

/-- Fuelled worker for `chSplit`; the fuel is an upper bound on the number of
separator occurrences, so `chSplit` below always supplies enough. -/
def chSplitF (sep : List Char) : ℕ → List Char → List (List Char)
  | _, [] => [[]]
  | 0, cs => [cs]
  | fuel + 1, c :: rest =>
    if sep ≠ [] ∧ sep.isPrefixOf (c :: rest) then
      [] :: chSplitF sep fuel ((c :: rest).drop sep.length)
    else
      match chSplitF sep fuel rest with
      | [] => [[c]]
      | g :: gs => (c :: g) :: gs

/-- Go `strings.Split` (for a non-empty separator): slices around every
non-overlapping, leftmost occurrence of `sep`. -/
def chSplit (sep cs : List Char) : List (List Char) :=
  chSplitF sep cs.length cs

/-- Go `strings.Contains` for a non-empty pattern. -/
def chContainsSub (pat : List Char) : List Char → Bool
  | [] => pat.isEmpty
  | c :: rest => pat.isPrefixOf (c :: rest) || chContainsSub pat rest

/-- The prefix of `timestamp` before its first space, i.e. the effect of
`if idx := strings.Index(timestamp, " "); idx != -1 { timestamp = timestamp[:idx] }`
in `parseTimestamp`. -/
def takeUntilSpace : List Char → List Char
  | [] => []
  | c :: rest => if c == ' ' then [] else c :: takeUntilSpace rest

/-- Decimal value of a digit list, most significant first (the way Go's
duration scanner accumulates `leadingInt`). -/
def digitsToNat (cs : List Char) : ℕ :=
  cs.foldl (fun a c => 10 * a + (c.toNat - 48)) 0

/-- Nanoseconds per unit, as in Go `time.ParseDuration`'s unit map. -/
def unitScaleNs : List Char → Option ℤ
  | ['n', 's'] => some 1
  | ['u', 's'] => some 1000
  | ['µ', 's'] => some 1000
  | ['μ', 's'] => some 1000
  | ['m', 's'] => some 1000000
  | ['s'] => some 1000000000
  | ['m'] => some 60000000000
  | ['h'] => some 3600000000000
  | _ => none

/-- One pass of Go `time.ParseDuration`'s component loop: repeatedly read an
optionally-fractional decimal number followed by a unit, and sum the
contributions in nanoseconds.  The fractional contribution
`int64(float64(f) * (float64(unit) / scale))` is modelled exactly as
`(f * unit).tdiv (10 ^ digits)`; for the units and digit counts reachable from
`parseTimestamp` the float computation is exact, so the two agree.  Integer
overflow of `int64` is not modelled.  The fuel is at least the length of the
remaining input, and every successful iteration consumes at least one
character, so the fuel never runs out on the initial call. -/
def parseDurLoop : ℕ → List Char → ℤ → Option ℤ
  | _, [], acc => some acc
  | 0, _ :: _, _ => none
  | fuel + 1, c :: cs0, acc =>
    let cs := c :: cs0
    let intPart := cs.takeWhile Char.isDigit
    let rest1 := cs.dropWhile Char.isDigit
    let fracPart :=
      match rest1 with
      | '.' :: r => r.takeWhile Char.isDigit
      | _ => []
    let rest2 :=
      match rest1 with
      | '.' :: r => r.dropWhile Char.isDigit
      | _ => rest1
    if intPart.isEmpty && fracPart.isEmpty then none
    else
      let unitCs := rest2.takeWhile (fun c => !(c == '.' || c.isDigit))
      let rest3 := rest2.dropWhile (fun c => !(c == '.' || c.isDigit))
      match unitScaleNs unitCs with
      | none => none
      | some scale =>
        parseDurLoop fuel rest3
          (acc + (digitsToNat intPart : ℤ) * scale
            + Int.tdiv ((digitsToNat fracPart : ℤ) * scale) ((10 : ℤ) ^ fracPart.length))

/-- Go `time.ParseDuration`, returning nanoseconds; `none` models a parse
error.  An optional sign is consumed first, the literal `0` needs no unit,
and otherwise one or more `number unit` components are summed. -/
def goParseDuration (s : String) : Option ℤ :=
  match s.data with
  | [] => none
  | cs =>
    let neg : Bool :=
      match cs with
      | '-' :: _ => true
      | _ => false
    let cs1 :=
      match cs with
      | '-' :: r => r
      | '+' :: r => r
      | r => r
    if cs1 = ['0'] then some 0
    else if cs1 = [] then none
    else (parseDurLoop (cs1.length + 1) cs1 0).map (fun v => if neg then -v else v)

/-- The timestamp text `parseTimestamp` actually operates on: everything
before the first space (dropping a trailing cue annotation), with every comma
replaced by a dot (`strings.ReplaceAll(timestamp, ",", ".")`; for a
single-character pattern the replacement is a character map). -/
def tsCore (s : String) : List Char :=
  (takeUntilSpace s.data).map (fun c => if c == ',' then '.' else c)

/-- The colon-separated fields of the timestamp (`strings.Split(timestamp, ":")`). -/
def tsParts (s : String) : List (List Char) :=
  chSplit [':'] (tsCore s)

/-- The dot-separated pieces of the third field
(`strings.Split(parts[2], ".")`). -/
def tsSecondParts (s : String) : List (List Char) :=
  chSplit ['.'] ((tsParts s).getD 2 [])

/-- Duration contributed by one timestamp field: the field text with the unit
appended is handed to `time.ParseDuration` and a parse error is discarded
(`hours, _ := time.ParseDuration(parts[0] + "h")` and so on), so a malformed
field contributes zero nanoseconds. -/
def tsFieldNs (cs : List Char) (unitStr : String) : ℤ :=
  (goParseDuration (cs.asString ++ unitStr)).getD 0

/-- The milliseconds text, right-padded with `'0'` to three characters and
truncated to three characters, as in the `for len(ms) < 3 { ms += "0" }` /
`ms = ms[:3]` steps. -/
def msPad (cs : List Char) : List Char :=
  (cs ++ List.replicate (3 - cs.length) '0').take 3

/-- Model of `parseTimestamp` (`main.go` lines 754-785), in nanoseconds.
Total by construction: fewer than three colon-separated fields yield zero and
each malformed field contributes zero. -/
def parseTimestamp (s : String) : ℤ :=
  if (tsParts s).length < 3 then 0
  else
    tsFieldNs ((tsParts s).getD 0 []) ("h")
      + tsFieldNs ((tsParts s).getD 1 []) ("m")
      + tsFieldNs ((tsSecondParts s).getD 0 []) ("s")
      + (if 1 < (tsSecondParts s).length then tsFieldNs (msPad ((tsSecondParts s).getD 1 [])) ("ms")
         else 0)

/-- True when the list starts with an inline timestamp tag
`<dd:dd:dd.ddd>` — the regex `<\d\x7b2\x7d:\d\x7b2\x7d:\d\x7b2\x7d\.\d\x7b3\x7d>`
of `cleanSubtitleText`. -/
def tsTagAt : List Char → Bool
  | '<' :: a :: b :: ':' :: c :: d :: ':' :: e :: f :: '.' :: g :: h :: k :: '>' :: _ =>
    a.isDigit && b.isDigit && c.isDigit && d.isDigit && e.isDigit && f.isDigit
      && g.isDigit && h.isDigit && k.isDigit
  | _ => false

/-- Fuelled removal of every (leftmost, non-overlapping) inline timestamp tag;
a match is 14 characters long.  The fuel is the input length, which always
suffices since every step consumes at least one character. -/
def stripTsTagsF : ℕ → List Char → List Char
  | _, [] => []
  | 0, cs => cs
  | fuel + 1, c :: rest =>
    if tsTagAt (c :: rest) then stripTsTagsF fuel ((c :: rest).drop 14)
    else c :: stripTsTagsF fuel rest

/-- Removal of the inline timestamp tags (`timestampPattern.ReplaceAllString`). -/
def stripTsTags (cs : List Char) : List Char :=
  stripTsTagsF cs.length cs

/-- Removal of the `<c>` / `</c>` style tags (the regex `</?c>` in
`cleanSubtitleText`). -/
def stripCTags : List Char → List Char
  | '<' :: 'c' :: '>' :: rest => stripCTags rest
  | '<' :: '/' :: 'c' :: '>' :: rest => stripCTags rest
  | c :: rest => c :: stripCTags rest
  | [] => []

/-- One pass of `strings.ReplaceAll(cleanText, "  ", " ")`: every leftmost,
non-overlapping double space becomes a single space. -/
def collapseDoubleSpace : List Char → List Char
  | ' ' :: ' ' :: rest => ' ' :: collapseDoubleSpace rest
  | c :: rest => c :: collapseDoubleSpace rest
  | [] => []

/-- Model of `cleanSubtitleText` (`main.go` lines 787-797). -/
def cleanSubtitleText (text : String) : String :=
  (chTrim (collapseDoubleSpace (stripCTags (stripTsTags text.data)))).asString

/-- Model of the `SubtitleEntry` struct; times are `time.Duration`, i.e.
integer nanoseconds. -/
structure SubtitleEntry where
  index : ℕ
  startTime : ℤ
  endTime : ℤ
  text : String
deriving DecidableEq

/-- Parser state of `parseVTTFile`'s line loop. -/
structure VTTState where
  entries : List SubtitleEntry
  current : SubtitleEntry
  inEntry : Bool
  index : ℕ
deriving DecidableEq

/-- One iteration of `parseVTTFile`'s loop over lines. -/
def vttStep (st : VTTState) (raw : List Char) : VTTState :=
  let line := chTrim raw
  if line = [] ∨ line = ("WEBVTT").data ∨ (("NOTE").data.isPrefixOf line) = true then st
  else if chContainsSub (("-->").data) line then
    let entries := if st.inEntry then st.entries ++ [st.current] else st.entries
    let idx := st.index + 1
    let stamps := chSplit (("-->").data) line
    let startT := if stamps.length = 2 then parseTimestamp (chTrim (stamps.getD 0 [])).asString else 0
    let endT := if stamps.length = 2 then parseTimestamp (chTrim (stamps.getD 1 [])).asString else 0
    { entries := entries, current := ⟨idx, startT, endT, ""⟩, inEntry := true, index := idx }
  else if st.inEntry then
    let newText :=
      if st.current.text ≠ "" then st.current.text ++ (" ") ++ line.asString else line.asString
    { st with current := { st.current with text := newText } }
  else st

/-- Model of `parseVTTFile` (`main.go` lines 706-752) applied to the file's
content.  Reading the file is effectful; a read error is represented at the
call sites by not invoking this function (`none` caption oracle), since the
parse itself never fails once the content is available. -/
def parseVTTFile (content : String) : List SubtitleEntry :=
  let st := (chSplit ['\n'] content.data).foldl vttStep ⟨[], ⟨0, 0, 0, ""⟩, false, 0⟩
  if st.inEntry then st.entries ++ [st.current] else st.entries

/-- Model of `formatSRTTimestamp` (`main.go` lines 826-831).  Go's `/` and `%`
on `int` truncate toward zero, i.e. `Int.tdiv` / `Int.tmod`; `%02d` zero-pads
single digits (and prints other values, including negatives, as-is). -/
def pad2 (n : ℤ) : String :=
  if 0 ≤ n ∧ n < 10 then ("0") ++ toString n else toString n

/-- Renders whole seconds in the `HH:MM:SS,000` SRT form; the milliseconds
field is the literal `,000` of the format string. -/
def formatSRTTimestamp (seconds : ℤ) : String :=
  pad2 (Int.tdiv seconds 3600) ++ (":") ++ pad2 (Int.tdiv (Int.tmod seconds 3600) 60)
    ++ (":") ++ pad2 (Int.tmod seconds 60) ++ (",000")

/-- The `adjustedStart` local of `getSubtitlesForTimeRange`:
`int(math.Max(0, entry.StartTime.Seconds()-float64(startSeconds)))`.
Writing `x` for the exact real `startTime/10^9 - startSeconds`
(numerator `startTime - startSeconds*nsPerSec` over `nsPerSec`), the Go value
is `trunc (max 0 x)`, which is `trunc x = tdiv` of the numerator when the
numerator is non-negative and `0` otherwise. -/
def adjustedStart (startSeconds : ℤ) (en : SubtitleEntry) : ℤ :=
  if 0 ≤ en.startTime - startSeconds * nsPerSec then
    Int.tdiv (en.startTime - startSeconds * nsPerSec) nsPerSec
  else 0

/-- The `adjustedEnd` local of `getSubtitlesForTimeRange`:
`int(math.Min(float64(endSeconds-startSeconds), entry.EndTime.Seconds()-float64(startSeconds)))`.
Writing `y` for the exact real `endTime/10^9 - startSeconds` and
`m = endSeconds - startSeconds`, the Go value is `trunc (min m y)`:
`trunc y = tdiv` of `y`'s numerator when `y ≤ m` (numerators compared over the
common positive denominator `nsPerSec`) and `m` itself otherwise. -/
def adjustedEnd (startSeconds endSeconds : ℤ) (en : SubtitleEntry) : ℤ :=
  if en.endTime - startSeconds * nsPerSec ≤ (endSeconds - startSeconds) * nsPerSec then
    Int.tdiv (en.endTime - startSeconds * nsPerSec) nsPerSec
  else endSeconds - startSeconds

/-- One rendered block of the output document of `getSubtitlesForTimeRange`:
the sequential index, the two adjusted whole-second timestamps (kept both as
integers and as the rendered strings), and the cleaned text. -/
structure SRTBlock where
  index : ℕ
  startSec : ℤ
  endSec : ℤ
  startStr : String
  endStr : String
  text : String
deriving DecidableEq

/-- The block emitted for one selected entry. -/
def mkBlock (idx : ℕ) (a b : ℤ) (en : SubtitleEntry) : SRTBlock :=
  { index := idx
    startSec := adjustedStart a en
    endSec := adjustedEnd a b en
    startStr := formatSRTTimestamp (adjustedStart a en)
    endStr := formatSRTTimestamp (adjustedEnd a b en)
    text := cleanSubtitleText en.text }

/-- The entry loop of `getSubtitlesForTimeRange` (`main.go` lines 806-820):
an entry is emitted when `entry.StartTime <= endTime && entry.EndTime >= startTime`
(times in nanoseconds, window bounds scaled by `time.Second`), and the running
index only advances on emitted entries. -/
def srtBlocksAux (a b : ℤ) : ℕ → List SubtitleEntry → List SRTBlock
  | _, [] => []
  | idx, en :: rest =>
    if en.startTime ≤ b * nsPerSec ∧ a * nsPerSec ≤ en.endTime then
      mkBlock idx a b en :: srtBlocksAux a b (idx + 1) rest
    else srtBlocksAux a b idx rest

/-- The blocks of the document produced by `getSubtitlesForTimeRange`,
numbered from 1. -/
def srtBlocks (entries : List SubtitleEntry) (startSeconds endSeconds : ℤ) : List SRTBlock :=
  srtBlocksAux startSeconds endSeconds 1 entries

/-- The `fmt.Sprintf("%d\n%s --> %s\n%s\n\n", ...)` text of one block. -/
def renderBlock (blk : SRTBlock) : String :=
  toString blk.index ++ ("\n") ++ blk.startStr ++ (" --> ") ++ blk.endStr ++ ("\n")
    ++ blk.text ++ ("\n\n")

/-- Model of `getSubtitlesForTimeRange` (`main.go` lines 799-823): the
concatenation (via `strings.Builder`) of the rendered blocks. -/
def getSubtitlesForTimeRange (entries : List SubtitleEntry) (startSeconds endSeconds : ℤ) :
    String :=
  ((srtBlocks entries startSeconds endSeconds).map renderBlock).foldl (· ++ ·) ("")

/-- The segment length bound of `splitLongVideo` (`const segmentDuration = 1200`). -/
def segmentDurationBound : ℤ := 1200

/-- The planned segment count `int(math.Ceil(duration / 1200))`, computed as
the exact ceiling of the rational `duration / 1200` (`math.Ceil` of the exact
quotient, on which the `int` conversion is the identity). -/
def numSegments (duration : ℚ) : ℤ :=
  -(Int.fdiv (-duration.num) (1200 * (duration.den : ℤ)))

/-- The per-segment video file name
`fmt.Sprintf("%s.part%d.mp4", videoFileName[:len(videoFileName)-4], i+1)`. -/
def segmentVideoName (videoFileName : String) (i : ℕ) : String :=
  (videoFileName.data.take (videoFileName.data.length - 4)).asString
    ++ (".part") ++ toString (i + 1) ++ (".mp4")

/-- The per-segment subtitle file name
`fmt.Sprintf("%s.part%d.srt", subtitleFileName[:len(subtitleFileName)-4], i+1)`. -/
def segmentSubtitleName (subtitleFileName : String) (i : ℕ) : String :=
  (subtitleFileName.data.take (subtitleFileName.data.length - 4)).asString
    ++ (".part") ++ toString (i + 1) ++ (".srt")

/-- Result of `splitLongVideo`: the two file-name slices it returns, plus the
`-ss` start offsets (seconds) passed to the media tool for each produced
segment (empty in the single-segment branch, which invokes no tool). -/
structure SplitOutput where
  videoSegments : List String
  subtitleSegments : List String
  segStarts : List ℤ
deriving DecidableEq

/-- Model of `splitLongVideo` (`main.go` lines 135-189) after a successful
duration probe.  `duration` is the probed value; `parsedCaptions` is the
outcome of `parseVTTFile(subtitleFileName + ".pt.vtt")` (`none` = read error,
in which case no caption segment is written); `writeOk i` says whether
`ioutil.WriteFile` succeeds for segment `i` — on failure the error is only
logged and the segment's caption name is *not* appended to
`subtitleSegments`, while its video name is still appended to
`videoSegments`.  The written caption text (`getSubtitlesForTimeRange` over
the window `[1200*i, 1200*i+1200]`) does not affect the returned slices and
is not tracked here.  The video `ffmpeg` invocations are assumed to succeed
(a failure aborts the whole call with an error, which no claim concerns). -/
def splitLongVideo (duration : ℚ) (videoFileName subtitleFileName : String)
    (parsedCaptions : Option (List SubtitleEntry)) (writeOk : ℕ → Bool) : SplitOutput :=
  if duration ≤ mkRat 1200 1 then ⟨[videoFileName], [subtitleFileName], []⟩
  else
    let n := (numSegments duration).toNat
    { videoSegments := (List.range n).map (segmentVideoName videoFileName)
      subtitleSegments := (List.range n).filterMap (fun i =>
        match parsedCaptions with
        | none => none
        | some _ => if writeOk i then some (segmentSubtitleName subtitleFileName i) else none)
      segStarts := (List.range n).map (fun i => (i : ℤ) * segmentDurationBound) }

/-- Model of the `Cut` struct; the Go json fields `begin` / `end` are ints
(seconds), renamed here because `end` is reserved in Lean. -/
structure Cut where
  title : String
  beginSec : ℤ
  endSec : ℤ
deriving DecidableEq

/-- Exponential backoff of the retry loops: no sleep before attempt 0 and
`2<<uint(attempt-1)` seconds before attempt `n ≥ 1`. -/
def backoffSeconds (attempt : ℕ) : ℕ :=
  if attempt = 0 then 0 else 2 <<< (attempt - 1)

/-- Outcome of one attempt of `GetCuts`'s retry loop, as seen through its
transport: `requestErr` = `http.NewRequest` fails; `doErr` = `client.Do`
fails; `readErr st` = the response (status `st`) is received but reading the
body fails; `ok st body` = the body is read with status `st`, and `body` is
`none` when `json.Unmarshal` into `OpenAIResponse` fails, otherwise the list
of choice contents, each pre-parsed as a `CutsResponse`
(`none` = that content fails to unmarshal).  The unmarshal is modelled as
atomic: a failed unmarshal leaves the destination untouched. -/
inductive CutAttemptOutcome where
  | requestErr
  | doErr
  | readErr (status : ℕ)
  | ok (status : ℕ) (body : Option (List (Option (List Cut))))
deriving DecidableEq

/-- The parsed `OpenAIResponse` of `GetCuts`: each choice abstracted to the
`CutsResponse`-parse of its message content. -/
structure OpenAIResponseM where
  choices : List (Option (List Cut))
deriving DecidableEq

/-- Trace of `GetCuts`'s retry loop: the sleep performed before each attempt
(seconds), the number of attempts made, and the final `statusCode` /
`apiResponse` variables. -/
structure GetCutsTrace where
  delays : List ℕ
  attempts : ℕ
  status : ℕ
  resp : OpenAIResponseM
deriving DecidableEq

/-- The `for attempt := 0; attempt < maxRetries; attempt++` loop of `GetCuts`
(`main.go` lines 635-673).  A transport error, a read error, a non-200
status, or an unparsable body all `continue` (consuming the attempt); a 200
response whose body unmarshals breaks out of the loop.  `statusCode` is
updated whenever `client.Do` returns a response. -/
def getCutsLoop (oracle : ℕ → CutAttemptOutcome) :
    ℕ → ℕ → ℕ → OpenAIResponseM → List ℕ → GetCutsTrace
  | 0, attempt, status, resp, delays => ⟨delays, attempt, status, resp⟩
  | remaining + 1, attempt, status, resp, delays =>
    match oracle attempt with
    | .requestErr =>
      getCutsLoop oracle remaining (attempt + 1) status resp (delays ++ [backoffSeconds attempt])
    | .doErr =>
      getCutsLoop oracle remaining (attempt + 1) status resp (delays ++ [backoffSeconds attempt])
    | .readErr st =>
      getCutsLoop oracle remaining (attempt + 1) st resp (delays ++ [backoffSeconds attempt])
    | .ok st body =>
      if st ≠ 200 then
        getCutsLoop oracle remaining (attempt + 1) st resp (delays ++ [backoffSeconds attempt])
      else
        match body with
        | none =>
          getCutsLoop oracle remaining (attempt + 1) st resp (delays ++ [backoffSeconds attempt])
        | some choices => ⟨delays ++ [backoffSeconds attempt], attempt + 1, st, ⟨choices⟩⟩

/-- Model of `GetCuts` (`main.go` lines 570-689) from the retry loop on
(the subtitle read and prompt construction before it do not affect the claims
about the transport contract).  After the loop: a non-200 final status, an
empty choice list, or an unparsable first choice content all yield the empty
result `nil`, never an error — the Go signature has no error to return. -/
def GetCuts (oracle : ℕ → CutAttemptOutcome) : GetCutsTrace × List Cut :=
  let tr := getCutsLoop oracle 3 0 0 ⟨[]⟩ []
  let cuts :=
    if tr.status ≠ 200 then []
    else
      match tr.resp.choices with
      | [] => []
      | c :: _ => c.getD []
  (tr, cuts)

/-- True of the attempt outcomes that `continue` the loop (a failed attempt):
everything except a 200 response with a body that unmarshals. -/
def cutAttemptFails : CutAttemptOutcome → Bool
  | .ok st body => st != 200 || body.isNone
  | _ => true

/-- The per-cut guard loop of `DownloadVideo` (`main.go` lines 295-310): a
cut whose `Begin` or `End` exceeds the probed segment duration
(`videoDuration < float64(cut.Begin) || videoDuration < float64(cut.End)`)
is skipped with `continue`, and the remaining cuts are still processed; the
returned list holds the cuts that reach materialization (the `SubClip`
extraction and everything after it). -/
def materializeCuts (videoDuration : ℚ) : List Cut → List Cut
  | [] => []
  | c :: rest =>
    if videoDuration < mkRat c.beginSec 1 ∨ videoDuration < mkRat c.endSec 1 then
      materializeCuts videoDuration rest
    else c :: materializeCuts videoDuration rest

/-- The transcript assembly of `DownloadVideo` (`main.go` lines 328-336):
entries with `StartTime >= Duration(cut.Begin)*Second` and
`EndTime <= Duration(cut.End)*Second` — full containment, not overlap —
contribute `" " + cleanSubtitleText(entry.Text)`, and the result is
`strings.TrimSpace`d. -/
def cutTranscript (entries : List SubtitleEntry) (beginSec endSec : ℤ) : String :=
  goTrimSpace (entries.foldl
    (fun acc en =>
      if beginSec * nsPerSec ≤ en.startTime ∧ en.endTime ≤ endSec * nsPerSec then
        acc ++ (" ") ++ cleanSubtitleText en.text
      else acc)
    (""))

/-- Model of the `VideoMetadata` struct. -/
structure VideoMetadata where
  title : String
  description : String
  tags : List String
  hashtags : List String
deriving DecidableEq

/-- The zero value the `var metadata VideoMetadata` declaration starts from. -/
def zeroMetadata : VideoMetadata := ⟨"", "", [], []⟩

/-- Outcome of one attempt of `GenerateMetadata`'s retry loop; as for
`GetCuts`, except that the choice contents are pre-parsed as
`VideoMetadata`. -/
inductive MetaAttemptOutcome where
  | requestErr
  | doErr
  | readErr (status : ℕ)
  | ok (status : ℕ) (body : Option (List (Option VideoMetadata)))
deriving DecidableEq

/-- Trace of `GenerateMetadata`'s retry loop. -/
structure MetaTrace where
  attempts : ℕ
  status : ℕ
  metadata : VideoMetadata
deriving DecidableEq

/-- The retry loop of `GenerateMetadata` (`main.go` lines 900-954).  Unlike
`GetCuts`, the choices and the content unmarshal are examined *inside* the
loop: an empty choice list or an unparsable content also `continue`s.  The
`metadata` variable is only assigned by a successful content unmarshal
(modelled as atomic). -/
def generateMetadataLoop (oracle : ℕ → MetaAttemptOutcome) :
    ℕ → ℕ → ℕ → VideoMetadata → MetaTrace
  | 0, attempt, status, md => ⟨attempt, status, md⟩
  | remaining + 1, attempt, status, md =>
    match oracle attempt with
    | .requestErr => generateMetadataLoop oracle remaining (attempt + 1) status md
    | .doErr => generateMetadataLoop oracle remaining (attempt + 1) status md
    | .readErr st => generateMetadataLoop oracle remaining (attempt + 1) st md
    | .ok st body =>
      if st ≠ 200 then generateMetadataLoop oracle remaining (attempt + 1) st md
      else
        match body with
        | none => generateMetadataLoop oracle remaining (attempt + 1) st md
        | some [] => generateMetadataLoop oracle remaining (attempt + 1) st md
        | some (none :: _) => generateMetadataLoop oracle remaining (attempt + 1) st md
        | some (some m :: _) => ⟨attempt + 1, st, m⟩

/-- Model of `GenerateMetadata` (`main.go` lines 849-961) from the retry loop
on.  After the loop the function returns
`nil, fmt.Errorf("API error: status code %d", statusCode)` when the recorded
status is not 200, and otherwise `&metadata, nil` — a non-nil pointer, even
when every attempt failed and `metadata` is still the zero value.
`Except.error` stands for the `nil, err` return, `Except.ok` for the non-nil
pointer. -/
def GenerateMetadata (oracle : ℕ → MetaAttemptOutcome) : Except String VideoMetadata :=
  let tr := generateMetadataLoop oracle 3 0 0 zeroMetadata
  if tr.status ≠ 200 then
    Except.error (("API error: status code ") ++ toString tr.status)
  else Except.ok tr.metadata

/-- True of the attempt outcomes that fail `GenerateMetadata`'s loop without
ever recording status 200: transport/read errors and non-200 responses.  (A
200 response with an unparsable body also fails the attempt but records
status 200; it is deliberately excluded, since the function then returns a
zero-valued non-nil metadata.) -/
def metaFailsNon200 : MetaAttemptOutcome → Bool
  | .requestErr => true
  | .doErr => true
  | .readErr st => st != 200
  | .ok st _ => st != 200

/-- The post-metadata tail of `DownloadVideo`'s per-cut body (`main.go` lines
350-539): the captioned (or fallback) horizontal artifact is always produced;
the cover, vertical, and horizontal-yt variants are produced iff the
corresponding base asset is configured, independently of the metadata
outcome; the YouTube upload runs iff `channel.UploadToYouTube` is set *and*
`metadata != nil`.  Returns the produced variant list and whether the upload
step runs. -/
def renderAndUpload (metaResult : Except String VideoMetadata)
    (hasCover hasVertical hasHorizontal uploadEnabled : Bool) : List String × Bool :=
  (((("horizontal") :: (if hasCover then [("cover")] else []))
      ++ (if hasVertical then [("vertical")] else []))
      ++ (if hasHorizontal then [("horizontal-yt")] else []),
    uploadEnabled && (match metaResult with
      | .ok _ => true
      | .error _ => false))

/-- The selection test of `getSubtitlesForTimeRange`, as a Boolean predicate:
inclusive overlap `entry.StartTime <= endTime && entry.EndTime >= startTime`. -/
def overlapTest (a b : ℤ) (en : SubtitleEntry) : Bool :=
  decide (en.startTime ≤ b * nsPerSec ∧ a * nsPerSec ≤ en.endTime)

/-- Specification-side description of the formatter's output: one block per
listed entry, numbered consecutively from `idx`. -/
def numberBlocks (a b : ℤ) : ℕ → List SubtitleEntry → List SRTBlock
  | _, [] => []
  | idx, en :: rest => mkBlock idx a b en :: numberBlocks a b (idx + 1) rest

/-- Specification-side description of the identity-window round trip: every
entry is kept, in order, renumbered from `i`; its start time is truncated to
whole seconds, its end time is clamped to `D` seconds and truncated to whole
seconds, and its text is markup-stripped. -/
def identityRoundTrip (D : ℤ) : ℕ → List SubtitleEntry → List SRTBlock
  | _, [] => []
  | i, en :: rest =>
    { index := i
      startSec := Int.tdiv en.startTime nsPerSec
      endSec := if en.endTime ≤ D * nsPerSec then Int.tdiv en.endTime nsPerSec else D
      startStr := formatSRTTimestamp (Int.tdiv en.startTime nsPerSec)
      endStr :=
        formatSRTTimestamp (if en.endTime ≤ D * nsPerSec then Int.tdiv en.endTime nsPerSec else D)
      text := cleanSubtitleText en.text } :: identityRoundTrip D (i + 1) rest

/-- The strict-containment test of the transcript assembly, as a Boolean
predicate: `StartTime >= begin` and `EndTime <= end` (seconds scaled to
nanoseconds). -/
def containedTest (beginSec endSec : ℤ) (en : SubtitleEntry) : Bool :=
  decide (beginSec * nsPerSec ≤ en.startTime ∧ en.endTime ≤ endSec * nsPerSec)

/-- Concatenation of a list of strings, for stating what a fold of `++`
produces. -/
def concatAll : List String → String
  | [] => ""
  | s :: rest => s ++ concatAll rest

/-- The guard of the per-cut loop, as a Boolean predicate: the cut is skipped
when `videoDuration < cut.Begin` or `videoDuration < cut.End`. -/
def cutGuardFails (videoDuration : ℚ) (c : Cut) : Bool :=
  decide (videoDuration < mkRat c.beginSec 1 ∨ videoDuration < mkRat c.endSec 1)

example : parseTimestamp ("00:01:05.250") = 65250000000 := by decide
example : parseTimestamp ("00:01:05,250") = 65250000000 := by decide
example : parseTimestamp ("1:2") = 0 := by decide
example : parseTimestamp ("00:00:05 position:0%") = 5000000000 := by decide
example : parseTimestamp ("xx:01:05") = 65000000000 := by decide
example : cleanSubtitleText ("ab<00:00:01.500><c> cd</c>") = "ab cd" := by decide
example :
    parseVTTFile ("WEBVTT\n\n00:00:01.500 --> 00:00:02.500\nhi\nthere\n") =
      [⟨1, 1500000000, 2500000000, "hi there"⟩] := by decide

example : formatSRTTimestamp 3675 = "01:01:15,000" := by decide
example :
    srtBlocks [⟨1, 1500000000, 2500000000, "hi"⟩] 0 10 =
      [⟨1, 1, 2, "00:00:01,000", "00:00:02,000", "hi"⟩] := by decide
example :
    getSubtitlesForTimeRange [⟨1, 1500000000, 2500000000, "hi"⟩] 0 10 =
      "1\n00:00:01,000 --> 00:00:02,000\nhi\n\n" := by decide
example : numSegments (mkRat 2500 1) = 3 := by decide
example :
    splitLongVideo (mkRat 2500 1) ("v.mp4") ("v.srt") none (fun _ => true) =
      ⟨[("v.part1.mp4"), ("v.part2.mp4"), ("v.part3.mp4")], [], [0, 1200, 2400]⟩ := by decide
example :
    (GetCuts (fun _ => CutAttemptOutcome.doErr)).1.delays = [0, 2, 4] := by decide
example :
    GenerateMetadata (fun _ => MetaAttemptOutcome.doErr) =
      Except.error ("API error: status code 0") := rfl
example :
    materializeCuts (mkRat 600 1) [⟨("A"), 0, 100⟩, ⟨("X"), 0, 9999⟩] = [⟨("A"), 0, 100⟩] := by
  decide
example :
    cutTranscript [⟨1, 1500000000, 2500000000, "hi"⟩, ⟨2, 2500000000, 9500000000, "yo"⟩] 1 3 =
      "hi" := by decide

lemma srtBlocksAux_eq_numberBlocks (a b : ℤ) :
    ∀ (E : List SubtitleEntry) (idx : ℕ),
      srtBlocksAux a b idx E = numberBlocks a b idx (E.filter (overlapTest a b)) := by
  intro E
  induction E with
  | nil => intro idx; rfl
  | cons en rest ih =>
    intro idx
    by_cases h : en.startTime ≤ b * nsPerSec ∧ a * nsPerSec ≤ en.endTime
    · rw [srtBlocksAux, if_pos h, List.filter_cons, if_pos (by simpa [overlapTest] using h),
        numberBlocks, ih]
    · rw [srtBlocksAux, if_neg h, List.filter_cons, if_neg (by simpa [overlapTest] using h), ih]

lemma mem_numberBlocks {a b : ℤ} :
    ∀ {L : List SubtitleEntry} {idx : ℕ} {blk : SRTBlock},
      blk ∈ numberBlocks a b idx L → ∃ en ∈ L, ∃ j, blk = mkBlock j a b en := by
  intro L
  induction L with
  | nil => intro idx blk h; cases h
  | cons en rest ih =>
    intro idx blk h
    rw [numberBlocks, List.mem_cons] at h
    rcases h with h | h
    · exact ⟨en, List.mem_cons_self en rest, idx, h⟩
    · obtain ⟨en2, hmem, j, hj⟩ := ih h
      exact ⟨en2, List.mem_cons_of_mem en hmem, j, hj⟩

lemma mem_srtBlocks {E : List SubtitleEntry} {a b : ℤ} {blk : SRTBlock}
    (h : blk ∈ srtBlocks E a b) :
    ∃ en ∈ E, (en.startTime ≤ b * nsPerSec ∧ a * nsPerSec ≤ en.endTime)
      ∧ ∃ j, blk = mkBlock j a b en := by
  rw [srtBlocks, srtBlocksAux_eq_numberBlocks] at h
  obtain ⟨en, hmem, j, hj⟩ := mem_numberBlocks h
  rw [List.mem_filter] at hmem
  exact ⟨en, hmem.1, by simpa [overlapTest] using hmem.2, j, hj⟩

lemma nsPerSec_pos : (0 : ℤ) < nsPerSec := by norm_num [nsPerSec]

lemma tdivNs_nonneg {x : ℤ} (hx : 0 ≤ x) : 0 ≤ Int.tdiv x nsPerSec :=
  Int.tdiv_nonneg hx (le_of_lt nsPerSec_pos)

lemma tdivNs_mono {x y : ℤ} (hx : 0 ≤ x) (hxy : x ≤ y) :
    Int.tdiv x nsPerSec ≤ Int.tdiv y nsPerSec := by
  rw [Int.tdiv_eq_ediv hx (le_of_lt nsPerSec_pos),
    Int.tdiv_eq_ediv (le_trans hx hxy) (le_of_lt nsPerSec_pos)]
  exact Int.ediv_le_ediv nsPerSec_pos hxy

lemma tdivNs_le_of_le_mul {x m : ℤ} (hx : 0 ≤ x) (h : x ≤ m * nsPerSec) :
    Int.tdiv x nsPerSec ≤ m := by
  rw [Int.tdiv_eq_ediv hx (le_of_lt nsPerSec_pos)]
  calc x / nsPerSec ≤ (m * nsPerSec) / nsPerSec := Int.ediv_le_ediv nsPerSec_pos h
    _ = m := Int.mul_ediv_cancel m (ne_of_gt nsPerSec_pos)

lemma adjusted_bounds {a b : ℤ} (en : SubtitleEntry) (hab : a ≤ b)
    (hse : en.startTime ≤ en.endTime)
    (h1 : en.startTime ≤ b * nsPerSec) (h2 : a * nsPerSec ≤ en.endTime) :
    0 ≤ adjustedStart a en ∧ adjustedStart a en ≤ adjustedEnd a b en
      ∧ adjustedEnd a b en ≤ b - a := by
  have hm : (0 : ℤ) ≤ b - a := sub_nonneg.mpr hab
  have hE0 : 0 ≤ en.endTime - a * nsPerSec := sub_nonneg.mpr h2
  have hSE : en.startTime - a * nsPerSec ≤ en.endTime - a * nsPerSec := by omega
  have hSm : en.startTime - a * nsPerSec ≤ (b - a) * nsPerSec := by
    have : (b - a) * nsPerSec = b * nsPerSec - a * nsPerSec := by ring
    omega
  refine ⟨?_, ?_, ?_⟩
  · rw [adjustedStart]
    split
    · exact tdivNs_nonneg (by assumption)
    · exact le_refl 0
  · rw [adjustedStart, adjustedEnd]
    split
    · split
      · exact tdivNs_mono (by assumption) hSE
      · exact tdivNs_le_of_le_mul (by assumption) hSm
    · split
      · exact tdivNs_nonneg hE0
      · exact hm
  · rw [adjustedEnd]
    split
    · exact tdivNs_le_of_le_mul hE0 (by assumption)
    · exact le_refl (b - a)

/-- C2: for windows `a ≤ b` and entry lists respecting the data-model
invariant `start ≤ end`, `getSubtitlesForTimeRange` emits exactly the entries
passing the inclusive-overlap test `start ≤ b ∧ end ≥ a` (clamped, shifted,
and renumbered from 1 by `mkBlock`), and every emitted block's adjusted
times satisfy `0 ≤ start ≤ end ≤ b - a`. -/
theorem format_window_bounds (E : List SubtitleEntry) (a b : ℤ) (hab : a ≤ b)
    (hwf : ∀ en ∈ E, en.startTime ≤ en.endTime) :
    srtBlocks E a b = numberBlocks a b 1 (E.filter (overlapTest a b))
      ∧ ∀ blk ∈ srtBlocks E a b,
          0 ≤ blk.startSec ∧ blk.startSec ≤ blk.endSec ∧ blk.endSec ≤ b - a := by
  refine ⟨srtBlocksAux_eq_numberBlocks a b E 1, ?_⟩
  intro blk hblk
  obtain ⟨en, hmem, hov, j, hj⟩ := mem_srtBlocks hblk
  have hbounds := adjusted_bounds en hab (hwf en hmem) hov.1 hov.2
  rw [hj]
  exact hbounds

/-- Witness for `format_window_bounds` at a concrete window and entry list. -/
theorem format_window_bounds_witness :
    ((0 : ℤ) ≤ 2)
    ∧ (∀ en ∈ [(⟨1, 0, 1000000000, ("x")⟩ : SubtitleEntry)], en.startTime ≤ en.endTime)
    ∧ ∀ blk ∈ srtBlocks [(⟨1, 0, 1000000000, ("x")⟩ : SubtitleEntry)] 0 2,
        0 ≤ blk.startSec ∧ blk.startSec ≤ blk.endSec ∧ blk.endSec ≤ 2 - 0 :=
  ⟨by decide, by decide,
    (format_window_bounds [(⟨1, 0, 1000000000, ("x")⟩ : SubtitleEntry)] 0 2 (by decide)
      (by decide)).2⟩

/-- C1 counterexample: the round trip under the identity window does *not*
reproduce the entries' start times.  The document has one entry starting at
1.5s; the formatted output's start timestamp, read back with the repo's own
`parseTimestamp`, is 1s. -/
theorem roundtrip_not_exact_counterexample :
    ¬ ((srtBlocks (parseVTTFile ("00:00:01.500 --> 00:00:02.500\nhi")) 0 10).map
          (fun blk => parseTimestamp blk.startStr)
        = (parseVTTFile ("00:00:01.500 --> 00:00:02.500\nhi")).map SubtitleEntry.startTime) := by
  decide

lemma srtBlocksAux_identity (D : ℤ) :
    ∀ (E : List SubtitleEntry) (i : ℕ),
      (∀ en ∈ E, 0 ≤ en.startTime ∧ en.startTime ≤ D * nsPerSec ∧ 0 ≤ en.endTime) →
      srtBlocksAux 0 D i E = identityRoundTrip D i E := by
  intro E
  induction E with
  | nil => intro i _; rfl
  | cons en rest ih =>
    intro i h
    obtain ⟨hs0, hsD, he0⟩ := h en (List.mem_cons_self en rest)
    have hcond : en.startTime ≤ D * nsPerSec ∧ 0 * nsPerSec ≤ en.endTime := by
      constructor
      · exact hsD
      · simpa using he0
    rw [srtBlocksAux, if_pos hcond, identityRoundTrip,
      ih (i + 1) (fun en2 hmem => h en2 (List.mem_cons_of_mem en hmem))]
    congr 1
    have hstart : adjustedStart 0 en = Int.tdiv en.startTime nsPerSec := by
      rw [adjustedStart, if_pos (by simpa using hs0)]
      norm_num
    have hend :
        adjustedEnd 0 D en
          = (if en.endTime ≤ D * nsPerSec then Int.tdiv en.endTime nsPerSec else D) := by
      rw [adjustedEnd]
      norm_num
    rw [mkBlock, hstart, hend]

/-- C1 (amended): formatting the parsed entries under the identity window
`[0, D]` reproduces every entry in order, renumbered from 1, but with its
start time truncated to whole seconds, its end time clamped to `D` and
truncated to whole seconds, and its text markup-stripped — not with the exact
original times and raw text. -/
theorem roundtrip_identity_truncates (doc : String) (D : ℤ)
    (hwf : ∀ en ∈ parseVTTFile doc,
      0 ≤ en.startTime ∧ en.startTime ≤ D * nsPerSec ∧ 0 ≤ en.endTime) :
    srtBlocks (parseVTTFile doc) 0 D = identityRoundTrip D 1 (parseVTTFile doc) :=
  srtBlocksAux_identity D (parseVTTFile doc) 1 hwf

/-- Witness for `roundtrip_identity_truncates` on a concrete document. -/
theorem roundtrip_identity_truncates_witness :
    (∀ en ∈ parseVTTFile ("00:00:01.000 --> 00:00:02.000\nhi"),
      0 ≤ en.startTime ∧ en.startTime ≤ 5 * nsPerSec ∧ 0 ≤ en.endTime)
    ∧ srtBlocks (parseVTTFile ("00:00:01.000 --> 00:00:02.000\nhi")) 0 5
        = identityRoundTrip 5 1 (parseVTTFile ("00:00:01.000 --> 00:00:02.000\nhi")) :=
  ⟨by decide, roundtrip_identity_truncates ("00:00:01.000 --> 00:00:02.000\nhi") 5 (by decide)⟩

lemma formatSRT_comma000 (n : ℤ) :
    ∃ p, formatSRTTimestamp n = p ++ (",000") :=
  ⟨pad2 (Int.tdiv n 3600) ++ (":") ++ pad2 (Int.tdiv (Int.tmod n 3600) 60) ++ (":")
    ++ pad2 (Int.tmod n 60), rfl⟩

/-- C10: every timestamp `getSubtitlesForTimeRange` writes is a whole second:
each emitted block renders the integer-truncated `adjustedStart` /
`adjustedEnd` of some input entry through `formatSRTTimestamp`, whose
milliseconds field is always the literal `,000`. -/
theorem output_timestamps_whole_seconds (E : List SubtitleEntry) (a b : ℤ) :
    ∀ blk ∈ srtBlocks E a b,
      (∃ en ∈ E, blk.startSec = adjustedStart a en ∧ blk.endSec = adjustedEnd a b en)
      ∧ blk.startStr = formatSRTTimestamp blk.startSec
      ∧ blk.endStr = formatSRTTimestamp blk.endSec
      ∧ (∃ p, blk.startStr = p ++ (",000"))
      ∧ (∃ q, blk.endStr = q ++ (",000")) := by
  intro blk hblk
  obtain ⟨en, hmem, _, j, hj⟩ := mem_srtBlocks hblk
  subst hj
  exact ⟨⟨en, hmem, rfl, rfl⟩, rfl, rfl, formatSRT_comma000 _, formatSRT_comma000 _⟩

/-- Witness for `output_timestamps_whole_seconds` on a sub-second entry. -/
theorem output_timestamps_whole_seconds_witness :
    mkBlock 1 0 10 ⟨1, 1500000000, 2500000000, "hi"⟩
        ∈ srtBlocks [(⟨1, 1500000000, 2500000000, "hi"⟩ : SubtitleEntry)] 0 10
    ∧ ∃ p, (mkBlock 1 0 10 ⟨1, 1500000000, 2500000000, "hi"⟩).startStr = p ++ (",000") :=
  ⟨by decide,
    (output_timestamps_whole_seconds [(⟨1, 1500000000, 2500000000, "hi"⟩ : SubtitleEntry)] 0 10
      (mkBlock 1 0 10 ⟨1, 1500000000, 2500000000, "hi"⟩) (by decide)).2.2.2.1⟩

lemma mkRat_one_eq (n : ℤ) : mkRat n 1 = (n : ℚ) := by
  rw [Rat.mkRat_eq_div]
  norm_num

lemma numSegments_eq_ceil (d : ℚ) : numSegments d = ⌈d / (1200 : ℚ)⌉ := by
  have hden0 : ((1200 * d.den : ℕ) : ℤ) = 1200 * (d.den : ℤ) := by push_cast; ring
  have hceil : (⌈d / (1200 : ℚ)⌉ : ℤ) = -⌊-(d / (1200 : ℚ))⌋ := by
    rw [Int.floor_neg, neg_neg]
  have h1 : d / (1200 : ℚ) = (d.num : ℚ) / ((d.den : ℚ) * 1200) := by
    conv_lhs => rw [← Rat.num_div_den d]
    rw [div_div]
  have hval : -(d / (1200 : ℚ)) = ((-d.num : ℤ) : ℚ) / ((1200 * d.den : ℕ) : ℚ) := by
    rw [h1]
    push_cast
    ring
  rw [numSegments, Int.fdiv_eq_ediv _ (by positivity), hceil, hval,
    Rat.floor_intCast_div_natCast, hden0]

/-- C3: `splitLongVideo` returns the original video and subtitle paths
unchanged (one segment, no media-tool invocation) when the probed duration is
at most 1200 seconds, and otherwise plans `⌈duration / 1200⌉` segments whose
start offsets are `0, 1200, 2400, …`. -/
theorem splitLongVideo_plan (duration : ℚ) (v s : String)
    (caps : Option (List SubtitleEntry)) (writeOk : ℕ → Bool) :
    (duration ≤ 1200 → splitLongVideo duration v s caps writeOk = ⟨[v], [s], []⟩)
    ∧ (1200 < duration →
        (splitLongVideo duration v s caps writeOk).videoSegments.length
            = (⌈duration / (1200 : ℚ)⌉).toNat
        ∧ (splitLongVideo duration v s caps writeOk).segStarts
            = (List.range (⌈duration / (1200 : ℚ)⌉).toNat).map (fun i => (i : ℤ) * 1200)) := by
  have hmk : mkRat (1200 : ℤ) 1 = (1200 : ℚ) := by
    rw [mkRat_one_eq]
    norm_num
  constructor
  · intro h
    rw [splitLongVideo, if_pos (by rw [hmk]; exact h)]
  · intro h
    have hneg : ¬ duration ≤ mkRat 1200 1 := by rw [hmk]; exact not_le.mpr h
    constructor
    · rw [splitLongVideo, if_neg hneg]
      simp [numSegments_eq_ceil]
    · rw [splitLongVideo, if_neg hneg]
      simp [numSegments_eq_ceil, segmentDurationBound]

/-- Witness for `splitLongVideo_plan`: a 600s video is returned unchanged and
a 2500s video is planned as 3 segments starting at 0, 1200 and 2400. -/
theorem splitLongVideo_plan_witness :
    ((mkRat 600 1 ≤ (1200 : ℚ))
      ∧ splitLongVideo (mkRat 600 1) ("v.mp4") ("v.srt") none (fun _ => true)
          = ⟨[("v.mp4")], [("v.srt")], []⟩)
    ∧ ((1200 : ℚ) < mkRat 2500 1
      ∧ (splitLongVideo (mkRat 2500 1) ("v.mp4") ("v.srt") none
            (fun _ => true)).videoSegments.length = 3
      ∧ (splitLongVideo (mkRat 2500 1) ("v.mp4") ("v.srt") none (fun _ => true)).segStarts
          = [0, 1200, 2400]) := by
  have h600 : mkRat 600 1 ≤ (1200 : ℚ) := by rw [mkRat_one_eq]; norm_num
  have h2500 : (1200 : ℚ) < mkRat 2500 1 := by rw [mkRat_one_eq]; norm_num
  have hceil : (⌈(mkRat 2500 1) / (1200 : ℚ)⌉) = 3 := by
    rw [← numSegments_eq_ceil]
    decide
  have hmain :=
    (splitLongVideo_plan (mkRat 2500 1) ("v.mp4") ("v.srt") none (fun _ => true)).2 h2500
  refine ⟨⟨h600,
      (splitLongVideo_plan (mkRat 600 1) ("v.mp4") ("v.srt") none (fun _ => true)).1 h600⟩,
    h2500, ?_, ?_⟩
  · rw [hmain.1, hceil]
    rfl
  · rw [hmain.2, hceil]
    decide

lemma getCutsLoop_attempts_bounds (oracle : ℕ → CutAttemptOutcome) :
    ∀ (remaining attempt status : ℕ) (resp : OpenAIResponseM) (delays : List ℕ),
      attempt ≤ (getCutsLoop oracle remaining attempt status resp delays).attempts
      ∧ (getCutsLoop oracle remaining attempt status resp delays).attempts
          ≤ attempt + remaining := by
  intro remaining
  induction remaining with
  | zero => intro attempt status resp delays; simp [getCutsLoop]
  | succ rem ih =>
    intro attempt status resp delays
    rw [getCutsLoop]
    cases oracle attempt with
    | requestErr =>
      dsimp only
      have h := ih (attempt + 1) status resp (delays ++ [backoffSeconds attempt])
      omega
    | doErr =>
      dsimp only
      have h := ih (attempt + 1) status resp (delays ++ [backoffSeconds attempt])
      omega
    | readErr st =>
      dsimp only
      have h := ih (attempt + 1) st resp (delays ++ [backoffSeconds attempt])
      omega
    | ok st body =>
      dsimp only
      by_cases hst : st ≠ 200
      · rw [if_pos hst]
        have h := ih (attempt + 1) st resp (delays ++ [backoffSeconds attempt])
        omega
      · rw [if_neg hst]
        cases body with
        | none =>
          dsimp only
          have h := ih (attempt + 1) st resp (delays ++ [backoffSeconds attempt])
          omega
        | some choices =>
          refine ⟨?_, ?_⟩
          · show attempt ≤ attempt + 1
            omega
          · show attempt + 1 ≤ attempt + (rem + 1)
            omega

lemma getCutsLoop_delays (oracle : ℕ → CutAttemptOutcome) :
    ∀ (remaining attempt status : ℕ) (resp : OpenAIResponseM) (delays : List ℕ),
      (getCutsLoop oracle remaining attempt status resp delays).delays
        = delays ++ (List.range' attempt
            ((getCutsLoop oracle remaining attempt status resp delays).attempts - attempt)).map
              backoffSeconds := by
  intro remaining
  induction remaining with
  | zero => intro attempt status resp delays; simp [getCutsLoop]
  | succ rem ih =>
    intro attempt status resp delays
    have hstep : ∀ (st2 : ℕ) (resp2 : OpenAIResponseM),
        (getCutsLoop oracle rem (attempt + 1) st2 resp2
            (delays ++ [backoffSeconds attempt])).delays
          = delays ++ (List.range' attempt
              ((getCutsLoop oracle rem (attempt + 1) st2 resp2
                  (delays ++ [backoffSeconds attempt])).attempts - attempt)).map
                backoffSeconds := by
      intro st2 resp2
      have h1 := ih (attempt + 1) st2 resp2 (delays ++ [backoffSeconds attempt])
      have h2 := (getCutsLoop_attempts_bounds oracle rem (attempt + 1) st2 resp2
        (delays ++ [backoffSeconds attempt])).1
      rw [h1]
      have hk : (getCutsLoop oracle rem (attempt + 1) st2 resp2
          (delays ++ [backoffSeconds attempt])).attempts - attempt
          = ((getCutsLoop oracle rem (attempt + 1) st2 resp2
              (delays ++ [backoffSeconds attempt])).attempts - (attempt + 1)) + 1 := by
        omega
      rw [hk, List.range'_succ, List.map_cons, List.append_assoc, List.singleton_append]
    rw [getCutsLoop]
    cases oracle attempt with
    | requestErr => exact hstep status resp
    | doErr => exact hstep status resp
    | readErr st => exact hstep st resp
    | ok st body =>
      dsimp only
      by_cases hst : st ≠ 200
      · rw [if_pos hst]
        exact hstep st resp
      · rw [if_neg hst]
        cases body with
        | none => exact hstep st resp
        | some choices =>
          show delays ++ [backoffSeconds attempt]
            = delays ++ (List.range' attempt (attempt + 1 - attempt)).map backoffSeconds
          simp

lemma getCutsLoop_all_fail (oracle : ℕ → CutAttemptOutcome) :
    ∀ (remaining attempt status : ℕ) (resp : OpenAIResponseM) (delays : List ℕ),
      (∀ n, attempt ≤ n → n < attempt + remaining → cutAttemptFails (oracle n) = true) →
      (getCutsLoop oracle remaining attempt status resp delays).attempts = attempt + remaining
      ∧ (getCutsLoop oracle remaining attempt status resp delays).resp = resp := by
  intro remaining
  induction remaining with
  | zero => intro attempt status resp delays _; simp [getCutsLoop]
  | succ rem ih =>
    intro attempt status resp delays h
    have hshift : ∀ n, attempt + 1 ≤ n → n < (attempt + 1) + rem →
        cutAttemptFails (oracle n) = true := by
      intro n h1 h2
      exact h n (by omega) (by omega)
    have hfail := h attempt (le_refl attempt) (by omega)
    rw [getCutsLoop]
    cases hor : oracle attempt with
    | requestErr =>
      dsimp only
      obtain ⟨h1, h2⟩ := ih (attempt + 1) status resp (delays ++ [backoffSeconds attempt]) hshift
      exact ⟨by omega, h2⟩
    | doErr =>
      dsimp only
      obtain ⟨h1, h2⟩ := ih (attempt + 1) status resp (delays ++ [backoffSeconds attempt]) hshift
      exact ⟨by omega, h2⟩
    | readErr st =>
      dsimp only
      obtain ⟨h1, h2⟩ := ih (attempt + 1) st resp (delays ++ [backoffSeconds attempt]) hshift
      exact ⟨by omega, h2⟩
    | ok st body =>
      dsimp only
      rw [hor] at hfail
      simp only [cutAttemptFails] at hfail
      by_cases hst : st ≠ 200
      · rw [if_pos hst]
        obtain ⟨h1, h2⟩ := ih (attempt + 1) st resp (delays ++ [backoffSeconds attempt]) hshift
        exact ⟨by omega, h2⟩
      · rw [if_neg hst]
        cases body with
        | none =>
          dsimp only
          obtain ⟨h1, h2⟩ := ih (attempt + 1) st resp (delays ++ [backoffSeconds attempt]) hshift
          exact ⟨by omega, h2⟩
        | some choices =>
          exfalso
          have hst200 : st = 200 := by omega
          subst hst200
          simp at hfail

/-- C4: `GetCuts` makes at most 3 attempts; the sleep before attempt `n` is
`backoffSeconds n`, i.e. 0, 2 and 4 seconds for attempts 0, 1 and 2; every
failing outcome (transport error, read error, non-200 status, unparsable
body) consumes one attempt; and when all three attempts fail the function
returns the empty cut list — its signature has no error to raise. -/
theorem getCuts_retry_contract (oracle : ℕ → CutAttemptOutcome) :
    (GetCuts oracle).1.attempts ≤ 3
    ∧ (GetCuts oracle).1.delays = (List.range (GetCuts oracle).1.attempts).map backoffSeconds
    ∧ backoffSeconds 0 = 0 ∧ backoffSeconds 1 = 2 ∧ backoffSeconds 2 = 4
    ∧ ((∀ n, n < 3 → cutAttemptFails (oracle n) = true) →
        (GetCuts oracle).1.attempts = 3 ∧ (GetCuts oracle).2 = []) := by
  have hfst : (GetCuts oracle).1 = getCutsLoop oracle 3 0 0 ⟨[]⟩ [] := rfl
  refine ⟨?_, ?_, rfl, rfl, rfl, ?_⟩
  · rw [hfst]
    have h := (getCutsLoop_attempts_bounds oracle 3 0 0 ⟨[]⟩ []).2
    omega
  · rw [hfst, getCutsLoop_delays]
    simp [List.range_eq_range']
  · intro h
    have hall := getCutsLoop_all_fail oracle 3 0 0 ⟨[]⟩ []
      (fun n _ h2 => h n (by omega))
    constructor
    · rw [hfst, hall.1]
    · show (if (getCutsLoop oracle 3 0 0 ⟨[]⟩ []).status ≠ 200 then ([] : List Cut)
        else
          match (getCutsLoop oracle 3 0 0 ⟨[]⟩ []).resp.choices with
          | [] => []
          | c :: _ => c.getD []) = []
      rw [hall.2]
      split
      · rfl
      · rfl

/-- Witness for `getCuts_retry_contract`: an oracle that always fails at
transport drives exactly 3 attempts with delays 0, 2, 4 and an empty result. -/
theorem getCuts_retry_contract_witness :
    (∀ n, n < 3 → cutAttemptFails ((fun _ => CutAttemptOutcome.doErr) n) = true)
    ∧ (GetCuts (fun _ => CutAttemptOutcome.doErr)).1.attempts = 3
    ∧ (GetCuts (fun _ => CutAttemptOutcome.doErr)).2 = []
    ∧ (GetCuts (fun _ => CutAttemptOutcome.doErr)).1.delays = [0, 2, 4] := by
  have h := getCuts_retry_contract (fun _ => CutAttemptOutcome.doErr)
  have hf : ∀ n, n < 3 → cutAttemptFails ((fun _ => CutAttemptOutcome.doErr) n) = true := by
    intro n _
    rfl
  have hex := h.2.2.2.2.2 hf
  refine ⟨hf, hex.1, hex.2, ?_⟩
  rw [h.2.1, hex.1]
  decide

lemma materializeCuts_eq_filter (d : ℚ) :
    ∀ cuts : List Cut, materializeCuts d cuts = cuts.filter (fun c => !cutGuardFails d c) := by
  intro cuts
  induction cuts with
  | nil => rfl
  | cons c rest ih =>
    by_cases h : d < mkRat c.beginSec 1 ∨ d < mkRat c.endSec 1
    · have hg : cutGuardFails d c = true := by
        rw [cutGuardFails]
        exact decide_eq_true h
      rw [materializeCuts, if_pos h, List.filter_cons, ih]
      simp [hg]
    · have hg : cutGuardFails d c = false := by
        rw [cutGuardFails]
        exact decide_eq_false h
      rw [materializeCuts, if_neg h, List.filter_cons, ih]
      simp [hg]

/-- C5: the per-cut guard of `DownloadVideo` materializes exactly the cuts
whose `Begin` and `End` do not exceed the probed segment duration: a cut with
`duration < Begin` or `duration < End` is skipped (absent from the
materialized list, so no media slice or rendered output is produced for it),
while every sibling cut passing the guard is still materialized. -/
theorem cut_window_guard (d : ℚ) (cuts : List Cut) :
    materializeCuts d cuts = cuts.filter (fun c => !cutGuardFails d c)
    ∧ (∀ c ∈ cuts, (d < mkRat c.beginSec 1 ∨ d < mkRat c.endSec 1) →
        c ∉ materializeCuts d cuts)
    ∧ (∀ c ∈ cuts, ¬(d < mkRat c.beginSec 1 ∨ d < mkRat c.endSec 1) →
        c ∈ materializeCuts d cuts) := by
  refine ⟨materializeCuts_eq_filter d cuts, ?_, ?_⟩
  · intro c _ hbad hmem
    rw [materializeCuts_eq_filter, List.mem_filter] at hmem
    have h2 := hmem.2
    have hg : cutGuardFails d c = true := by
      rw [cutGuardFails]
      exact decide_eq_true hbad
    rw [hg] at h2
    simp at h2
  · intro c hcmem hgood
    rw [materializeCuts_eq_filter, List.mem_filter]
    refine ⟨hcmem, ?_⟩
    have hg : cutGuardFails d c = false := by
      rw [cutGuardFails]
      exact decide_eq_false hgood
    simp [hg]

/-- Witness for `cut_window_guard`: on a 600s segment, the hallucinated cut
`{X, 0, 9999}` is skipped while its sibling `{A, 0, 100}` is materialized. -/
theorem cut_window_guard_witness :
    ((⟨("X"), 0, 9999⟩ : Cut) ∈ [(⟨("A"), 0, 100⟩ : Cut), ⟨("X"), 0, 9999⟩])
    ∧ (⟨("X"), 0, 9999⟩ : Cut) ∉
        materializeCuts (mkRat 600 1) [(⟨("A"), 0, 100⟩ : Cut), ⟨("X"), 0, 9999⟩]
    ∧ (⟨("A"), 0, 100⟩ : Cut) ∈
        materializeCuts (mkRat 600 1) [(⟨("A"), 0, 100⟩ : Cut), ⟨("X"), 0, 9999⟩] :=
  ⟨by decide,
    (cut_window_guard (mkRat 600 1) [(⟨("A"), 0, 100⟩ : Cut), ⟨("X"), 0, 9999⟩]).2.1
      ⟨("X"), 0, 9999⟩ (by decide) (by decide),
    (cut_window_guard (mkRat 600 1) [(⟨("A"), 0, 100⟩ : Cut), ⟨("X"), 0, 9999⟩]).2.2
      ⟨("A"), 0, 100⟩ (by decide) (by decide)⟩

lemma generateMetadataLoop_all_fail (oracle : ℕ → MetaAttemptOutcome) :
    ∀ (remaining attempt status : ℕ) (md : VideoMetadata),
      (∀ n, attempt ≤ n → n < attempt + remaining → metaFailsNon200 (oracle n) = true) →
      status ≠ 200 →
      (generateMetadataLoop oracle remaining attempt status md).status ≠ 200
      ∧ (generateMetadataLoop oracle remaining attempt status md).attempts = attempt + remaining
      ∧ (generateMetadataLoop oracle remaining attempt status md).metadata = md := by
  intro remaining
  induction remaining with
  | zero =>
    intro attempt status md _ hstatus
    exact ⟨hstatus, by simp [generateMetadataLoop], rfl⟩
  | succ rem ih =>
    intro attempt status md h hstatus
    have hshift : ∀ n, attempt + 1 ≤ n → n < (attempt + 1) + rem →
        metaFailsNon200 (oracle n) = true := by
      intro n h1 h2
      exact h n (by omega) (by omega)
    have hfail := h attempt (le_refl attempt) (by omega)
    rw [generateMetadataLoop]
    cases hor : oracle attempt with
    | requestErr =>
      dsimp only
      obtain ⟨h1, h2, h3⟩ := ih (attempt + 1) status md hshift hstatus
      exact ⟨h1, by omega, h3⟩
    | doErr =>
      dsimp only
      obtain ⟨h1, h2, h3⟩ := ih (attempt + 1) status md hshift hstatus
      exact ⟨h1, by omega, h3⟩
    | readErr st =>
      dsimp only
      rw [hor] at hfail
      simp only [metaFailsNon200] at hfail
      have hst : st ≠ 200 := by simpa using hfail
      obtain ⟨h1, h2, h3⟩ := ih (attempt + 1) st md hshift hst
      exact ⟨h1, by omega, h3⟩
    | ok st body =>
      dsimp only
      rw [hor] at hfail
      simp only [metaFailsNon200] at hfail
      have hst : st ≠ 200 := by simpa using hfail
      rw [if_pos hst]
      obtain ⟨h1, h2, h3⟩ := ih (attempt + 1) st md hshift hst
      exact ⟨h1, by omega, h3⟩

/-- C6 counterexample: when every attempt fails at transport (so the retry
loop is exhausted), `GenerateMetadata` returns the Go pair
`nil, fmt.Errorf("API error: status code %d", statusCode)` — an error, not a
bare absence as the claim states. -/
theorem generateMetadata_error_counterexample :
    GenerateMetadata (fun _ => MetaAttemptOutcome.doErr)
      = Except.error ("API error: status code 0") := rfl

/-- C6 (amended): when all 3 attempts fail without ever recording a 200
status, `GenerateMetadata` returns an error together with a nil metadata
pointer; its caller in `DownloadVideo` nevertheless renders every configured
variant of the cut and, because the metadata pointer is nil, never performs
the upload step. -/
theorem generateMetadata_exhaustion (oracle : ℕ → MetaAttemptOutcome)
    (h : ∀ n, n < 3 → metaFailsNon200 (oracle n) = true) :
    (∃ msg, GenerateMetadata oracle = Except.error msg)
    ∧ (∀ hasCover hasVertical hasHorizontal uploadEnabled : Bool,
        renderAndUpload (GenerateMetadata oracle) hasCover hasVertical hasHorizontal
            uploadEnabled
          = (((("horizontal") :: (if hasCover then [("cover")] else []))
              ++ (if hasVertical then [("vertical")] else []))
              ++ (if hasHorizontal then [("horizontal-yt")] else []), false)) := by
  have hall := generateMetadataLoop_all_fail oracle 3 0 0 zeroMetadata
    (fun n _ h2 => h n (by omega)) (by omega)
  have herr : GenerateMetadata oracle
      = Except.error (("API error: status code ")
          ++ toString (generateMetadataLoop oracle 3 0 0 zeroMetadata).status) := by
    show (if (generateMetadataLoop oracle 3 0 0 zeroMetadata).status ≠ 200 then
        Except.error (("API error: status code ")
          ++ toString (generateMetadataLoop oracle 3 0 0 zeroMetadata).status)
      else Except.ok (generateMetadataLoop oracle 3 0 0 zeroMetadata).metadata) = _
    rw [if_pos hall.1]
  refine ⟨⟨_, herr⟩, ?_⟩
  intro hasCover hasVertical hasHorizontal uploadEnabled
  rw [herr, renderAndUpload.eq_def]
  simp

/-- Witness for `generateMetadata_exhaustion` at a concrete always-failing
oracle and a fully-configured channel. -/
theorem generateMetadata_exhaustion_witness :
    (∀ n, n < 3 → metaFailsNon200 ((fun _ => MetaAttemptOutcome.requestErr) n) = true)
    ∧ renderAndUpload (GenerateMetadata (fun _ => MetaAttemptOutcome.requestErr))
        true true true true
      = ([("horizontal"), ("cover"), ("vertical"), ("horizontal-yt")], false) := by
  have hf : ∀ n, n < 3 → metaFailsNon200 ((fun _ => MetaAttemptOutcome.requestErr) n) = true := by
    intro n _
    rfl
  have h := (generateMetadata_exhaustion (fun _ => MetaAttemptOutcome.requestErr) hf).2
    true true true true
  refine ⟨hf, ?_⟩
  rw [h]
  rfl

/-- C7 (the documented graceful degradation fails): when the caption write
for segment index 1 of a 2400s video fails, `splitLongVideo` logs and
continues — both video segments are still produced — but `subtitleSegments`
ends up shorter than `videoSegments`, so `DownloadVideo`'s lockstep access
`subtitleSegments[i]` at `i = 1` is out of bounds (`get? 1 = none`), which in
Go is an index-out-of-range panic, i.e. a process crash. -/
theorem caption_failure_lockstep_out_of_bounds :
    (splitLongVideo (mkRat 2400 1) ("video.mp4") ("video.srt") (some [])
        (fun i => i == 0)).videoSegments.length = 2
    ∧ (splitLongVideo (mkRat 2400 1) ("video.mp4") ("video.srt") (some [])
        (fun i => i == 0)).subtitleSegments = [("video.part1.srt")]
    ∧ (splitLongVideo (mkRat 2400 1) ("video.mp4") ("video.srt") (some [])
        (fun i => i == 0)).subtitleSegments.get? 1 = none := by
  decide

lemma transcript_foldl (b e : ℤ) :
    ∀ (entries : List SubtitleEntry) (init : String),
      entries.foldl
        (fun acc en =>
          if b * nsPerSec ≤ en.startTime ∧ en.endTime ≤ e * nsPerSec then
            acc ++ (" ") ++ cleanSubtitleText en.text
          else acc) init
        = init ++ concatAll ((entries.filter (containedTest b e)).map
            (fun en => (" ") ++ cleanSubtitleText en.text)) := by
  intro entries
  induction entries with
  | nil =>
    intro init
    rw [List.foldl_nil, List.filter_nil, List.map_nil, concatAll, String.append_empty]
  | cons en rest ih =>
    intro init
    rw [List.foldl_cons]
    by_cases h : b * nsPerSec ≤ en.startTime ∧ en.endTime ≤ e * nsPerSec
    · have hg : containedTest b e en = true := by
        rw [containedTest]
        exact decide_eq_true h
      rw [if_pos h, ih, List.filter_cons, if_pos hg, List.map_cons, concatAll]
      simp [String.append_assoc]
    · have hg : containedTest b e en = false := by
        rw [containedTest]
        exact decide_eq_false h
      rw [if_neg h, ih, List.filter_cons,
        if_neg (by rw [hg]; exact Bool.false_ne_true)]

/-- C8: the plain-text transcript used for metadata generation is assembled
from exactly the entries fully contained in the cut window
(`StartTime ≥ begin` and `EndTime ≤ end`), not from the entries that merely
overlap it: it is the trimmed concatenation of the cleaned texts of the
contained entries. -/
theorem transcript_full_containment (entries : List SubtitleEntry) (beginSec endSec : ℤ) :
    cutTranscript entries beginSec endSec
      = goTrimSpace (concatAll ((entries.filter (containedTest beginSec endSec)).map
          (fun en => (" ") ++ cleanSubtitleText en.text))) := by
  rw [cutTranscript, transcript_foldl]
  rfl

lemma takeUntilSpace_of_no_space :
    ∀ l : List Char, (' ') ∉ l → takeUntilSpace l = l := by
  intro l
  induction l with
  | nil => intro _; rfl
  | cons c rest ih =>
    intro h
    have hc : c ≠ ' ' := by
      intro hcc
      subst hcc
      exact h (List.mem_cons_self _ _)
    have hcb : ¬ ((c == ' ') = true) := by simpa using hc
    rw [takeUntilSpace, if_neg hcb, ih (fun hm => h (List.mem_cons_of_mem c hm))]

lemma takeUntilSpace_append_space :
    ∀ l r : List Char, (' ') ∉ l → takeUntilSpace (l ++ ' ' :: r) = l := by
  intro l r
  induction l with
  | nil =>
    intro _
    rw [List.nil_append, takeUntilSpace]
    simp
  | cons c rest ih =>
    intro h
    have hc : c ≠ ' ' := by
      intro hcc
      subst hcc
      exact h (List.mem_cons_self _ _)
    have hcb : ¬ ((c == ' ') = true) := by simpa using hc
    rw [List.cons_append, takeUntilSpace, if_neg hcb,
      ih (fun hm => h (List.mem_cons_of_mem c hm))]

lemma tsCore_drop_annotation (s t : String) (h : (' ') ∉ s.data) :
    tsCore (s ++ (" ") ++ t) = tsCore s := by
  have hdata : (s ++ (" ") ++ t).data = s.data ++ ' ' :: t.data := by
    rw [String.data_append, String.data_append]
    simp
  rw [tsCore, tsCore, hdata, takeUntilSpace_append_space s.data t.data h,
    takeUntilSpace_of_no_space s.data h]

/-- C9: `parseTimestamp` is total and lenient, so it never fails the
enclosing document parse: a timestamp with fewer than three colon-separated
fields yields zero; a trailing annotation after whitespace is ignored; with
three or more fields the result is the sum of the four per-field
contributions; and a field whose `ParseDuration` fails contributes zero. -/
theorem parseTimestamp_leniency :
    (∀ s : String, (tsParts s).length < 3 → parseTimestamp s = 0)
    ∧ (∀ s t : String, (' ') ∉ s.data →
        parseTimestamp (s ++ (" ") ++ t) = parseTimestamp s)
    ∧ (∀ s : String, ¬ (tsParts s).length < 3 →
        parseTimestamp s
          = tsFieldNs ((tsParts s).getD 0 []) ("h") + tsFieldNs ((tsParts s).getD 1 []) ("m")
            + tsFieldNs ((tsSecondParts s).getD 0 []) ("s")
            + (if 1 < (tsSecondParts s).length then
                tsFieldNs (msPad ((tsSecondParts s).getD 1 [])) ("ms")
              else 0))
    ∧ (∀ (cs : List Char) (u : String),
        goParseDuration (cs.asString ++ u) = none → tsFieldNs cs u = 0) := by
  refine ⟨?_, ?_, ?_, ?_⟩
  · intro s h
    rw [parseTimestamp, if_pos h]
  · intro s t h
    have hcore := tsCore_drop_annotation s t h
    have hp : tsParts (s ++ (" ") ++ t) = tsParts s := by
      rw [tsParts, tsParts, hcore]
    have hsp : tsSecondParts (s ++ (" ") ++ t) = tsSecondParts s := by
      rw [tsSecondParts, tsSecondParts, hp]
    rw [parseTimestamp, parseTimestamp, hp, hsp]
  · intro s h
    rw [parseTimestamp, if_neg h]
  · intro cs u h
    rw [tsFieldNs, h]
    rfl

/-- Witness for `parseTimestamp_leniency` on concrete timestamps: a
two-field timestamp, a cue annotation after a space, and a malformed hours
field. -/
theorem parseTimestamp_leniency_witness :
    ((tsParts ("1:2")).length < 3 ∧ parseTimestamp ("1:2") = 0)
    ∧ ((' ') ∉ ("00:00:05").data
        ∧ parseTimestamp (("00:00:05") ++ (" ") ++ ("align:start")) = parseTimestamp ("00:00:05"))
    ∧ (goParseDuration ((['x', 'x']).asString ++ ("h")) = none
        ∧ tsFieldNs ['x', 'x'] ("h") = 0) :=
  ⟨⟨by decide, parseTimestamp_leniency.1 ("1:2") (by decide)⟩,
    ⟨by decide, parseTimestamp_leniency.2.1 ("00:00:05") ("align:start") (by decide)⟩,
    ⟨by decide, parseTimestamp_leniency.2.2.2 ['x', 'x'] ("h") (by decide)⟩⟩

end Godeogoker
